import Mathlib

/-!
Verification of the tapo-smart-light colour-sync core against its
natural-language specification.

The Python source is shallowly embedded:
* machine floats are modelled as exact rationals (`ℚ`) for all arithmetic the
  source performs with `+ - * /`, comparisons, `min`/`max`, `np.clip`,
  `np.median` / `np.percentile` (linear interpolation) and Python `%`;
* `np.tanh` and float exponentiation `**` are modelled with `Real.tanh` and
  `Real.rpow`, applied to the rational intermediate values;
* Python `int()` (truncation toward zero) is `pyInt` / `pyIntR`;
* `numpy`'s ascending sort is embedded as a structural insertion sort (the
  observable value, the sorted list, is the same);
* the `asyncio` lifecycle of the engines and the coordinator is embedded as
  explicit state-passing step functions; external effects (device connect,
  power, discovery, capture) are resolved by an adversarially chosen
  environment record.
-/

/-- Python `%` on floats, for a positive modulus: `x % y = x - y * ⌊x / y⌋`. -/
def pyMod (x y : ℚ) : ℚ := x - y * ⌊x / y⌋

/-- Python `int()` truncates toward zero. -/
def pyInt (x : ℚ) : ℤ := if 0 ≤ x then ⌊x⌋ else -⌊-x⌋

/-- Real-valued version of Python `%` for the audio hue computation. -/
noncomputable def pyModR (x y : ℝ) : ℝ := x - y * ⌊x / y⌋

/-- Real-valued version of Python `int()`. -/
noncomputable def pyIntR (x : ℝ) : ℤ := if 0 ≤ x then ⌊x⌋ else -⌊-x⌋

/-- Model of `np.clip(x, lo, hi)`. -/
def npClip (x lo hi : ℚ) : ℚ := min (max x lo) hi

/-- Model of `np.mean` on a list of rationals. -/
def npMeanQ (l : List ℚ) : ℚ := l.sum / l.length

/-- Model of `np.mean` on the real (post-`tanh`) band values. -/
noncomputable def npMeanR (l : List ℝ) : ℝ := l.sum / l.length

/-- Insert into an ascending-sorted list, keeping it sorted. -/
def insertAsc (x : ℚ) : List ℚ → List ℚ
  | [] => [x]
  | y :: ys => if x ≤ y then x :: y :: ys else y :: insertAsc x ys

/-- Ascending sort, modelling the sort `np.median` / `np.percentile` perform. -/
def sortAsc (l : List ℚ) : List ℚ := l.foldr insertAsc []

/-- Model of `np.percentile(l, q)` with the default linear interpolation:
sort ascending, take position `pos = q / 100 * (n - 1)` and interpolate
linearly between the entries at `⌊pos⌋` and the next index.  The source only
calls it with the integral percentages 90 and 50 (the median), so `q` is a
natural number and `⌊pos⌋` is the natural-number division `q * (n - 1) / 100`. -/
def npPercentile (l : List ℚ) (q : ℕ) : ℚ :=
  let s := sortAsc l
  let n := s.length
  let i : ℕ := q * (n - 1) / 100
  let pos : ℚ := (q : ℚ) / 100 * ((n : ℚ) - 1)
  let lo := s.getD i 0
  let hi := s.getD (min (i + 1) (n - 1)) 0
  lo + (pos - (i : ℚ)) * (hi - lo)

/-- Model of `np.median`, which is the 50th percentile with linear
interpolation (mean of the two middle entries for even length). -/
def npMedian (l : List ℚ) : ℚ := npPercentile l 50

/-! ## BandNormalizer (`tapo_sync/audio_sync.py`, class `AdaptiveEnergy`) -/

/-- Appending to a `collections.deque(maxlen := m)`: the element is appended
and the oldest entries beyond the capacity are evicted from the front. -/
def dequeAppend (maxlen : Nat) (h : List ℚ) (e : ℚ) : List ℚ :=
  let h2 := h ++ [e]
  if maxlen < h2.length then h2.drop (h2.length - maxlen) else h2

/-- Per-band body of `AdaptiveEnergy.update_and_normalize`, after the append:
the pre-`tanh` normalised value for one band.  `hist` is the band history
with the current energy already appended.  The emitted float is
`Real.tanh` of this value (the source appends the literal `0.0` in the
cold-start branch, and `tanh 0 = 0`). -/
def normValOf (hist : List ℚ) (energy : ℚ) : ℚ :=
  if hist.length < 20 then 0
  else
    let med := npMedian hist
    let p90 := npPercentile hist 90
    if p90 ≤ med then 0
    else npClip ((energy - med) / (p90 - med + 1 / 1000000000)) 0 2

/-- One `update_and_normalize` pass over all bands: walks the per-band
histories in step with the incoming energies.  Returns `none` when there are
more energies than bands (the source would raise `IndexError` on
`self._band_hist[i]`); trailing bands that receive no energy are kept
unchanged (the source's loop runs over the input list). -/
def updateBands (maxlen : Nat) : List (List ℚ) → List ℚ → Option (List (List ℚ) × List ℚ)
  | hs, [] => some (hs, [])
  | [], _ :: _ => none
  | h :: hs, e :: es =>
    let h2 := dequeAppend maxlen h e
    match updateBands maxlen hs es with
    | none => none
    | some (hs2, vs) => some (h2 :: hs2, normValOf h2 e :: vs)

/-- State of `AdaptiveEnergy`: the deque capacity and the per-band histories
(one list per band, constructed empty). -/
structure AdaptiveEnergy where
  maxlen : Nat
  bandHist : List (List ℚ)
deriving DecidableEq

/-- The constructor `AdaptiveEnergy(num_bands, maxlen)`. -/
def AdaptiveEnergy.mk0 (num_bands : Nat) (maxlen : Nat) : AdaptiveEnergy :=
  ⟨maxlen, List.replicate num_bands []⟩

/-- Model of `AdaptiveEnergy.update_and_normalize`: mutate the histories and
return the pre-`tanh` normalised values (the emitted floats are their
`Real.tanh` images). -/
def AdaptiveEnergy.update_and_normalize (st : AdaptiveEnergy) (es : List ℚ) :
    Option (AdaptiveEnergy × List ℚ) :=
  match updateBands st.maxlen st.bandHist es with
  | none => none
  | some (hs, vs) => some (⟨st.maxlen, hs⟩, vs)

/-- Modelled from the spec, §4.1 BandNormalizer, per band: append to the
bounded history evicting the oldest entry past capacity; emit 0.0 on fewer
than 20 samples collected so far; emit 0.0 if the 90th percentile is at most
the median; otherwise emit `clamp((energy - median) / (p90 - median + 1e-9),
0, 2.0)` (pre-`tanh` value). -/
def refBandNormalize (maxlen : Nat) (hist : List ℚ) (e : ℚ) : List ℚ × ℚ :=
  let h2 := hist ++ [e]
  let h3 := if maxlen < h2.length then h2.tail else h2
  if h3.length < 20 then (h3, 0)
  else
    let med := npMedian h3
    let p90 := npPercentile h3 90
    if p90 ≤ med then (h3, 0)
    else (h3, npClip ((e - med) / (p90 - med + 1 / 1000000000)) 0 2)

/-- Modelled from the spec, §4.1: the whole-frame reference algorithm, band
by band. -/
def refNormalize (maxlen : Nat) : List (List ℚ) → List ℚ → List (List ℚ) × List ℚ
  | hs, [] => (hs, [])
  | [], _ :: _ => ([], [])
  | h :: hs, e :: es =>
    let r := refBandNormalize maxlen h e
    let rest := refNormalize maxlen hs es
    (r.1 :: rest.1, r.2 :: rest.2)

/-! ## Screen engine pure helpers (`tapo_sync/screen_sync.py`) -/

/-- Model of `lerp(start, end, factor)`. -/
def lerp (s e f : ℚ) : ℚ := s + (e - s) * f

/-- Model of `lerp_hue(start, end, factor)`: when the absolute difference
exceeds 180 the smaller endpoint is lifted by 360 before interpolating, and
the result is reduced with Python `%` 360. -/
def lerp_hue (s e f : ℚ) : ℚ :=
  if 180 < |e - s| then
    if s < e then pyMod (lerp (s + 360) e f) 360
    else pyMod (lerp s (e + 360) f) 360
  else pyMod (lerp s e f) 360

/-- Model of `apply_gamma_correction(color, gamma)`:
`int(255 * ((c / 255) ** gamma))` per channel, with `**` as `Real.rpow`. -/
noncomputable def apply_gamma_correction (color : ℤ × ℤ × ℤ) (gamma : ℝ) : ℤ × ℤ × ℤ :=
  (pyIntR (255 * ((color.1 / 255 : ℝ) ^ gamma)),
   pyIntR (255 * ((color.2.1 / 255 : ℝ) ^ gamma)),
   pyIntR (255 * ((color.2.2 / 255 : ℝ) ^ gamma)))

/-- Model of `colorsys.rgb_to_hsv` on inputs in `[0, 1]`. -/
def rgb_to_hsv (r g b : ℚ) : ℚ × ℚ × ℚ :=
  let maxc := max r (max g b)
  let minc := min r (min g b)
  let v := maxc
  if minc = maxc then (0, 0, v)
  else
    let s := (maxc - minc) / maxc
    let rc := (maxc - r) / (maxc - minc)
    let gc := (maxc - g) / (maxc - minc)
    let bc := (maxc - b) / (maxc - minc)
    let h := if r = maxc then bc - gc else if g = maxc then 2 + rc - bc else 4 + gc - rc
    (pyMod (h / 6) 1, s, v)

/-- Model of `ScreenSettings` (`tapo_sync/config.py`). -/
structure ScreenSettings where
  refresh_rate : ℚ
  smoothing_factor : ℚ
  gamma_correction : ℚ
  saturation_boost : ℚ
  min_brightness : ℤ
  max_brightness : ℤ
  power_factor : ℚ
  monitor_index : ℕ
deriving DecidableEq

/-- The defaults of `ScreenSettings` in `tapo_sync/config.py`. -/
def ScreenSettings.default : ScreenSettings :=
  ⟨60, 2/5, 6/5, 3/2, 10, 80, 9/5, 1⟩

/-- Model of the tail of `ScreenSyncEngine._get_weighted_avg_color`, starting
from the gamma-corrected average colour (screen capture and pixel averaging
are external primitives; the gamma stage keeps every channel in `[0, 255]`,
see `apply_gamma_correction_mem`): convert to HSV, boost saturation (capped
at 1), clamp `user_brightness * v` into the configured brightness bounds,
and floor hue/saturation to ints. -/
def weighted_targets (st : ScreenSettings) (user : ℤ) (corrected : ℤ × ℤ × ℤ) :
    ℤ × ℤ × ℤ :=
  let r := (corrected.1 : ℚ) / 255
  let g := (corrected.2.1 : ℚ) / 255
  let b := (corrected.2.2 : ℚ) / 255
  let hsv := rgb_to_hsv r g b
  let s2 := min (hsv.2.1 * st.saturation_boost) 1
  let brightness := pyInt ((user : ℚ) * hsv.2.2)
  let brightness := max st.min_brightness (min brightness st.max_brightness)
  let hue := pyInt (hsv.1 * 360)
  let saturation := max 10 (pyInt (s2 * 100))
  (hue, saturation, brightness)

/-- Model of `ScreenSyncEngine._update_colors`: smooth the persisted HSV
state toward the fresh targets and emit the floored triple that is pushed to
the device. -/
def update_colors (st : ScreenSettings) (user : ℤ) (cur : ℚ × ℚ × ℚ)
    (corrected : ℤ × ℤ × ℤ) : (ℚ × ℚ × ℚ) × (ℤ × ℤ × ℤ) :=
  let t := weighted_targets st user corrected
  let h2 := lerp_hue cur.1 (t.1 : ℚ) st.smoothing_factor
  let s2 := lerp cur.2.1 (t.2.1 : ℚ) st.smoothing_factor
  let b2 := lerp cur.2.2 (t.2.2 : ℚ) st.smoothing_factor
  ((h2, s2, b2), (pyInt h2, pyInt s2, pyInt b2))

/-- The smoothed-colour state a fresh `ScreenSyncEngine` starts from
(`_current_hue = 0.0`, `_current_sat = 50.0`, `_current_brightness = 60.0`). -/
def screenInit : ℚ × ℚ × ℚ := (0, 50, 60)

/-- Run the screen engine loop over a list of captured (gamma-corrected
average) colours and collect the pushed triples. -/
def runScreen (st : ScreenSettings) (user : ℤ) :
    (ℚ × ℚ × ℚ) → List (ℤ × ℤ × ℤ) → List (ℤ × ℤ × ℤ)
  | _, [] => []
  | cur, c :: cs =>
    let r := update_colors st user cur c
    r.2 :: runScreen st user r.1 cs

/-! ## Audio engine colour mapping and rate limiter (`tapo_sync/audio_sync.py`) -/

/-- Model of the hue computation in `AudioSyncEngine._run`:
`int((bass_energy * 0 + treble_energy * 240) % 360)` where `bass_energy`
and `treble_energy` are the means of `band_norms[0:3]` and
`band_norms[6:10]` of the emitted (post-`tanh`) normalised values. -/
noncomputable def audioHue (band_norms : List ℝ) : ℤ :=
  pyIntR (pyModR (npMeanR (band_norms.take 3) * 0 +
    npMeanR ((band_norms.drop 6).take 4) * 240) 360)

/-- The rate-limiter step of `AudioSyncEngine._run`: a tick at time `t` with
last push at `last` pushes exactly when `t - last` strictly exceeds the
configured interval, and then records `t` as the new last push. -/
def pushesFrom (interval : ℚ) : ℚ → List ℚ → List ℚ
  | _, [] => []
  | last, t :: ts =>
    if interval < t - last then t :: pushesFrom interval t ts
    else pushesFrom interval last ts

/-! ## Engine lifecycle (`AudioSyncEngine.start/stop`, `ScreenSyncEngine.start/stop`) -/

/-- Lifecycle state of one engine: whether its background task is alive
(`_task` is set and not finished), plus a count of how many background loops
have ever been spawned. -/
structure EngineLifecycleState where
  taskActive : Bool
  loopsSpawned : ℕ
deriving DecidableEq

/-- Model of `AudioSyncEngine.start`: returns unchanged when the task is
alive, otherwise spawns a fresh background loop. -/
def AudioSyncEngine.start (s : EngineLifecycleState) : EngineLifecycleState :=
  if s.taskActive then s else ⟨true, s.loopsSpawned + 1⟩

/-- Model of `AudioSyncEngine.stop`: returns unchanged when no task exists,
otherwise signals the event, awaits the loop and clears the task. -/
def AudioSyncEngine.stop (s : EngineLifecycleState) : EngineLifecycleState :=
  if s.taskActive then ⟨false, s.loopsSpawned⟩ else s

/-- Model of `ScreenSyncEngine.start` (same lifecycle code as the audio
engine). -/
def ScreenSyncEngine.start (s : EngineLifecycleState) : EngineLifecycleState :=
  if s.taskActive then s else ⟨true, s.loopsSpawned + 1⟩

/-- Model of `ScreenSyncEngine.stop` (same lifecycle code as the audio
engine). -/
def ScreenSyncEngine.stop (s : EngineLifecycleState) : EngineLifecycleState :=
  if s.taskActive then ⟨false, s.loopsSpawned⟩ else s

/-! ## SyncCoordinator (`tapo_sync/sync_manager.py`) -/

/-- Model of `SyncMode`. -/
inductive SyncMode where
  | audio
  | screen
deriving DecidableEq

/-- Coordinator state: whether an audio engine instance is held and running,
whether a screen engine instance is held and running, and the recorded
active mode. -/
structure CoordState where
  audioEngine : Bool
  screenEngine : Bool
  active_mode : Option SyncMode
deriving DecidableEq

/-- The exceptions `SyncCoordinator.start` can raise. -/
inductive CoordErr where
  | missingIp
  | deviceNotFound
  | connectFailed
  | powerOnFailed
  | audioCtorFailed
deriving DecidableEq

/-- Externally visible collaborator calls made during `start`. -/
inductive CoordAction where
  | discover
  | connect
  | powerOn
  | ctorAudio
  | ctorScreen
  | engineStart
deriving DecidableEq

/-- Adversarial environment resolving the external collaborators: whether
`connect` succeeds, whether `ensure_on` succeeds, whether the audio engine
constructor succeeds (capture backend present, band count supported), and
what `discover_device_ip` returns. -/
structure Env where
  connectOk : Bool
  powerOnOk : Bool
  audioBackendOk : Bool
  discovered : Option ℕ
deriving DecidableEq

/-- Model of `SyncCoordinator.stop`: stops and discards whichever engine is
held (a no-op when none), best-effort powers the device off (failures
swallowed), clears the recorded mode. -/
def SyncCoordinator.stop (_s : CoordState) : CoordState :=
  ⟨false, false, none⟩

/-- Model of `SyncCoordinator.start`: stop whatever runs, then perform the
mode switch.  Returns the resulting state, the raised exception if any, and
the list of collaborator calls attempted after the initial stop. -/
def SyncCoordinator.start (env : Env) (s : CoordState) (mode : SyncMode)
    (device_ip : Option ℕ) : CoordState × Option CoordErr × List CoordAction :=
  let s1 := SyncCoordinator.stop s
  match mode with
  | .audio =>
    if device_ip.isNone then (s1, some .missingIp, [])
    else if !env.connectOk then (s1, some .connectFailed, [.connect])
    else if !env.powerOnOk then (s1, some .powerOnFailed, [.connect, .powerOn])
    else if !env.audioBackendOk then
      (s1, some .audioCtorFailed, [.connect, .powerOn, .ctorAudio])
    else
      (⟨true, false, some .audio⟩, none, [.connect, .powerOn, .ctorAudio, .engineStart])
  | .screen =>
    let ipResolved : Option ℕ :=
      match device_ip with
      | some ip => some ip
      | none => env.discovered
    let acts0 : List CoordAction := if device_ip.isNone then [.discover] else []
    if ipResolved.isNone then (s1, some .deviceNotFound, acts0)
    else if !env.connectOk then (s1, some .connectFailed, acts0 ++ [.connect])
    else if !env.powerOnOk then (s1, some .powerOnFailed, acts0 ++ [.connect, .powerOn])
    else
      (⟨false, true, some .screen⟩, none,
        acts0 ++ [.connect, .powerOn, .ctorScreen, .engineStart])

/-- One coordinator call from the claimed interleaving alphabet. -/
inductive CoordOp where
  | start (env : Env) (mode : SyncMode) (device_ip : Option ℕ)
  | stop
deriving DecidableEq

/-- The coordinator state after one call completes (normally or by raising:
the source leaves the post-`stop` state in place on every raise). -/
def coordStep (s : CoordState) : CoordOp → CoordState
  | .start env mode ip => (SyncCoordinator.start env s mode ip).1
  | .stop => SyncCoordinator.stop s

/-- The state of a freshly constructed `SyncCoordinator`. -/
def initCoord : CoordState := ⟨false, false, none⟩

/-- Run a finite interleaving of coordinator calls. -/
def runCoord (s : CoordState) (ops : List CoordOp) : CoordState :=
  ops.foldl coordStep s

/-- The claimed coordinator invariant: at most one engine running, and the
recorded active mode is non-null exactly when exactly one engine instance is
running. -/
def coordInv (s : CoordState) : Prop :=
  ¬(s.audioEngine = true ∧ s.screenEngine = true) ∧
    (s.active_mode.isSome ↔
      ((s.audioEngine = true ∧ s.screenEngine = false) ∨
        (s.audioEngine = false ∧ s.screenEngine = true)))

instance (s : CoordState) : Decidable (coordInv s) := by
  unfold coordInv; infer_instance

/-! ## Helper lemmas about `Real.tanh` -/

/-- Closed form of `tanh` used for monotonicity and bounds:
`tanh x = 1 - 2 / (exp x ^ 2 + 1)`. -/
theorem tanh_eq_one_sub (x : ℝ) : Real.tanh x = 1 - 2 / (Real.exp x ^ 2 + 1) := by
  rw [Real.tanh_eq_sinh_div_cosh, Real.sinh_eq, Real.cosh_eq, Real.exp_neg]
  have h1 : (0:ℝ) < Real.exp x := Real.exp_pos x
  have h2 : (0:ℝ) < Real.exp x + (Real.exp x)⁻¹ := by positivity
  have h3 : (0:ℝ) < Real.exp x ^ 2 + 1 := by positivity
  field_simp
  ring

/-- The hyperbolic tangent never reaches 1. -/
theorem tanh_lt_one (x : ℝ) : Real.tanh x < 1 := by
  rw [Real.tanh_eq_sinh_div_cosh]
  exact (div_lt_one (Real.cosh_pos x)).mpr (Real.sinh_lt_cosh x)

/-- The hyperbolic tangent of a nonnegative argument is nonnegative. -/
theorem tanh_nonneg {x : ℝ} (hx : 0 ≤ x) : 0 ≤ Real.tanh x := by
  rw [Real.tanh_eq_sinh_div_cosh]
  exact div_nonneg (Real.sinh_nonneg_iff.mpr hx) (Real.cosh_pos x).le

/-- The hyperbolic tangent of a positive argument is positive. -/
theorem tanh_pos {x : ℝ} (hx : 0 < x) : 0 < Real.tanh x := by
  rw [Real.tanh_eq_sinh_div_cosh]
  exact div_pos (Real.sinh_pos_iff.mpr hx) (Real.cosh_pos x)

/-- The hyperbolic tangent is monotone. -/
theorem tanh_le_tanh {a b : ℝ} (hab : a ≤ b) : Real.tanh a ≤ Real.tanh b := by
  rw [tanh_eq_one_sub, tanh_eq_one_sub]
  have h2 : Real.exp a ≤ Real.exp b := Real.exp_le_exp.2 hab
  have h4 : (0:ℝ) < Real.exp a ^ 2 + 1 := by positivity
  have h3 : Real.exp a ^ 2 + 1 ≤ Real.exp b ^ 2 + 1 := by
    nlinarith [Real.exp_pos a, Real.exp_pos b]
  have h5 : 2 / (Real.exp b ^ 2 + 1) ≤ 2 / (Real.exp a ^ 2 + 1) := by gcongr
  linarith

/-- Numeric bound on `tanh 2` used by the audio hue analysis:
`tanh 2 < 29/30`, hence `240 * tanh 2 < 232`. -/
theorem tanh_two_lt : Real.tanh 2 < 29/30 := by
  rw [tanh_eq_one_sub]
  have h4 : Real.exp 2 ^ 2 = Real.exp 1 ^ 4 := by
    have ha : Real.exp 2 ^ 2 = Real.exp (2 + 2) := by rw [Real.exp_add]; ring
    have hb : Real.exp (2 + 2) = Real.exp ((4:ℕ) * (1:ℝ)) := by norm_num
    rw [ha, hb, Real.exp_nat_mul]
  rw [h4]
  have he : Real.exp 1 < 2.7182818286 := Real.exp_one_lt_d9
  have hp : (0:ℝ) < Real.exp 1 := Real.exp_pos 1
  have h6 : (0:ℝ) < Real.exp 1 ^ 4 + 1 := by positivity
  have h5 : Real.exp 1 ^ 4 < 2.7182818286 ^ 4 := by
    exact pow_lt_pow_left₀ he hp.le (by norm_num)
  have h7 : Real.exp 1 ^ 4 + 1 < 60 := by nlinarith
  have h8 : (2:ℝ)/60 < 2 / (Real.exp 1 ^ 4 + 1) :=
    div_lt_div_of_pos_left (by norm_num) h6 h7
  linarith

/-- Evaluating `pyIntR` on an integer. -/
theorem pyIntR_intCast (n : ℤ) : pyIntR (n : ℝ) = n := by
  unfold pyIntR
  split
  · exact Int.floor_intCast n
  · rw [show (-(n:ℝ)) = ((-n : ℤ) : ℝ) by push_cast; ring, Int.floor_intCast]
    ring

/-! ## C4: circular hue interpolation -/

/-- C4: `lerp_hue 350 10 0.5` returns exactly 0 — on the 0°/360° seam (and in
particular within any epsilon of 0° or 360°) and not 180°; and in general,
whenever the shorter angular path between two hues in `[0, 360)` crosses the
seam (equivalently `180 < |e - s|`), `lerp_hue` lifts the smaller endpoint by
360 before interpolating and reduces the result with Python `%` 360. -/
theorem lerp_hue_wraps_shortest_path :
    lerp_hue 350 10 (1/2) = 0 ∧ lerp_hue 350 10 (1/2) ≠ 180 ∧
    ∀ s e f : ℚ, 0 ≤ s → s < 360 → 0 ≤ e → e < 360 → 180 < |e - s| →
      lerp_hue s e f =
        pyMod (if s < e then lerp (s + 360) e f else lerp s (e + 360) f) 360 := by
  refine ⟨?_, ?_, ?_⟩
  · norm_num [lerp_hue, lerp, pyMod, Int.floor_eq_iff]
  · norm_num [lerp_hue, lerp, pyMod, Int.floor_eq_iff]
  · intro s e f _ _ _ _ h
    rw [lerp_hue, if_pos h]
    split <;> rfl

/-- Witness for C4: concrete instance of the general wrap equation at
`s = 350`, `e = 10`, `f = 3/4`, together with the seam value itself. -/
theorem lerp_hue_wraps_shortest_path_witness :
    lerp_hue 350 10 (1/2) = 0 ∧
    lerp_hue 350 10 (3/4) = pyMod (lerp 350 (10 + 360) (3/4)) 360 := by
  refine ⟨lerp_hue_wraps_shortest_path.1, ?_⟩
  have h := lerp_hue_wraps_shortest_path.2.2 350 10 (3/4) (by norm_num) (by norm_num)
    (by norm_num) (by norm_num) (by rw [abs_of_nonpos] <;> norm_num)
  rw [h, if_neg (by norm_num)]

/-! ## C5: gamma correction with gamma = 1 -/

/-- C5: `apply_gamma_correction((c, c, c), 1.0)` returns every channel in
`[0, 255]` unchanged. -/
theorem apply_gamma_correction_one (c : ℤ) (_h0 : 0 ≤ c) (_h255 : c ≤ 255) :
    apply_gamma_correction (c, c, c) 1 = (c, c, c) := by
  unfold apply_gamma_correction
  simp only [Real.rpow_one]
  rw [show (255:ℝ) * ((c:ℝ)/255) = (c:ℝ) by field_simp]
  rw [pyIntR_intCast]

/-- Witness for C5 at channel value 7. -/
theorem apply_gamma_correction_one_witness :
    (0:ℤ) ≤ 7 ∧ (7:ℤ) ≤ 255 ∧ apply_gamma_correction (7, 7, 7) 1 = (7, 7, 7) :=
  ⟨by norm_num, by norm_num,
    apply_gamma_correction_one 7 (by norm_num) (by norm_num)⟩

/-! ## C9: engine start/stop idempotence -/

/-- C9: for both engines, `start` on a Running engine is a no-op (the state,
including the count of spawned background loops, is unchanged) and `stop` on
an Idle engine is a no-op. -/
theorem engine_start_stop_idempotent (s : EngineLifecycleState) :
    (s.taskActive = true → AudioSyncEngine.start s = s ∧ ScreenSyncEngine.start s = s) ∧
    (s.taskActive = false → AudioSyncEngine.stop s = s ∧ ScreenSyncEngine.stop s = s) := by
  constructor
  · intro h
    constructor <;> simp [AudioSyncEngine.start, ScreenSyncEngine.start, h]
  · intro h
    constructor <;> simp [AudioSyncEngine.stop, ScreenSyncEngine.stop, h]

/-- Witness for C9 at a Running state and an Idle state. -/
theorem engine_start_stop_idempotent_witness :
    (AudioSyncEngine.start ⟨true, 1⟩ = ⟨true, 1⟩ ∧
      ScreenSyncEngine.start ⟨true, 1⟩ = ⟨true, 1⟩) ∧
    (AudioSyncEngine.stop ⟨false, 0⟩ = ⟨false, 0⟩ ∧
      ScreenSyncEngine.stop ⟨false, 0⟩ = ⟨false, 0⟩) :=
  ⟨(engine_start_stop_idempotent ⟨true, 1⟩).1 rfl,
    (engine_start_stop_idempotent ⟨false, 0⟩).2 rfl⟩

/-! ## C8: audio start without a device address -/

/-- C8: starting Audio mode with no device address raises the configuration
error before any collaborator call — in particular no device discovery is
attempted — and leaves the coordinator with no engine and no recorded mode. -/
theorem audio_start_missing_ip (env : Env) (s : CoordState) :
    (SyncCoordinator.start env s .audio none).2.1 = some .missingIp ∧
    (SyncCoordinator.start env s .audio none).1.audioEngine = false ∧
    (SyncCoordinator.start env s .audio none).1.screenEngine = false ∧
    (SyncCoordinator.start env s .audio none).1.active_mode = none ∧
    CoordAction.discover ∉ (SyncCoordinator.start env s .audio none).2.2 ∧
    (SyncCoordinator.start env s .audio none).2.2 = [] := by
  simp [SyncCoordinator.start, SyncCoordinator.stop]

/-! ## C1: coordinator invariant -/

/-- Every single coordinator call lands in a state satisfying the invariant. -/
theorem coordStep_inv (s : CoordState) (op : CoordOp) : coordInv (coordStep s op) := by
  cases op with
  | stop => exact (by decide : coordInv ⟨false, false, none⟩)
  | start env mode ip =>
    cases mode <;>
      simp only [coordStep, SyncCoordinator.start, SyncCoordinator.stop] <;>
      split_ifs <;> decide

/-- C1: after any finite interleaving of `start(Audio)`, `start(Screen)` and
`stop()` calls (with arbitrary environment outcomes: the post-raise state of
a failed `start` is included), at most one engine is running and the recorded
active mode is non-null exactly when exactly one engine is running; moreover
a second consecutive `stop()` leaves the state unchanged. -/
theorem coordinator_invariant :
    (∀ ops : List CoordOp, coordInv (runCoord initCoord ops)) ∧
    (∀ s : CoordState, coordStep (coordStep s .stop) .stop = coordStep s .stop) := by
  constructor
  · have hrun : ∀ (ops : List CoordOp) (s : CoordState), coordInv s →
        coordInv (runCoord s ops) := by
      intro ops
      induction ops with
      | nil => intro s hs; exact hs
      | cons op ops ih =>
        intro s _
        exact ih (coordStep s op) (coordStep_inv s op)
    intro ops
    exact hrun ops initCoord (by decide)
  · intro s
    rfl

/-! ## C6: the audio push rate limiter -/

/-- Chain of strict gaps along the push sequence, anchored at the previous
push time. -/
theorem pushesFrom_chain (interval : ℚ) :
    ∀ (ticks : List ℚ) (last : ℚ),
      List.Chain (fun a b => interval < b - a) last (pushesFrom interval last ticks)
  | [], _ => List.Chain.nil
  | t :: ts, last => by
    rw [pushesFrom]
    split
    · exact List.Chain.cons (by assumption) (pushesFrom_chain interval ts t)
    · exact pushesFrom_chain interval ts last

/-- C6: in the audio loop, any two consecutive device pushes are separated by
strictly more than the configured minimum interval, and a tick whose elapsed
time since the last push does not exceed the interval performs no push and
leaves the recorded last-push time unchanged. -/
theorem audio_rate_limiter :
    (∀ (interval last : ℚ) (ticks : List ℚ),
      List.Chain' (fun a b => interval < b - a) (pushesFrom interval last ticks)) ∧
    (∀ (interval last t : ℚ) (ts : List ℚ), ¬ interval < t - last →
      pushesFrom interval last (t :: ts) = pushesFrom interval last ts) := by
  constructor
  · intro interval last ticks
    have h := pushesFrom_chain interval ticks last
    cases hp : pushesFrom interval last ticks with
    | nil => exact trivial
    | cons b bs =>
      rw [hp] at h
      exact (List.chain_cons.mp h).2
  · intro interval last t ts h
    rw [pushesFrom, if_neg h]

/-- Witness for C6: the interval 1/20 (50ms) with the second tick arriving
10ms after the first push suppresses that push. -/
theorem audio_rate_limiter_witness :
    List.Chain' (fun a b => (1:ℚ)/20 < b - a) (pushesFrom (1/20) 0 [1/10, 11/100, 1/5]) ∧
    (¬ (1:ℚ)/20 < 11/100 - 1/10) ∧
    pushesFrom (1/20) (1/10) [11/100] = pushesFrom (1/20) (1/10) [] :=
  ⟨audio_rate_limiter.1 (1/20) 0 [1/10, 11/100, 1/5], by norm_num,
    audio_rate_limiter.2 (1/20) (1/10) (11/100) [] (by norm_num)⟩

/-! ## Lemmas about the band normalizer -/

/-- A deque append never exceeds the capacity it is grown under, provided the
history respected it before. -/
theorem dequeAppend_length_le {m : Nat} {h : List ℚ} (e : ℚ) (_hle : h.length ≤ m) :
    (dequeAppend m h e).length ≤ m := by
  simp only [dequeAppend]
  split
  · simp
    omega
  · simp at *
    omega

/-- On histories within capacity, the deque append is exactly the spec's
"append, evicting the oldest entry past capacity". -/
theorem dequeAppend_eq_tail {m : Nat} {h : List ℚ} (e : ℚ) (hle : h.length ≤ m) :
    dequeAppend m h e = if m < (h ++ [e]).length then (h ++ [e]).tail else h ++ [e] := by
  simp only [dequeAppend]
  split
  · have hlen : (h ++ [e]).length - m = 1 := by simp at *; omega
    rw [hlen, List.drop_one]
  · rfl

/-- The per-band reference algorithm coincides with the code's per-band body
on histories within capacity. -/
theorem refBand_eq (m : Nat) (h : List ℚ) (e : ℚ) (hle : h.length ≤ m) :
    refBandNormalize m h e = (dequeAppend m h e, normValOf (dequeAppend m h e) e) := by
  have h3eq : (if m < (h ++ [e]).length then (h ++ [e]).tail else h ++ [e]) =
      dequeAppend m h e := (dequeAppend_eq_tail e hle).symm
  simp only [refBandNormalize, normValOf, h3eq]
  split
  · rfl
  · split <;> rfl

/-- `updateBands` succeeds and returns one value per input energy whenever
there are at least as many bands as energies. -/
theorem updateBands_some (m : Nat) :
    ∀ (es : List ℚ) (hs : List (List ℚ)), es.length ≤ hs.length →
      ∃ hs2 vs, updateBands m hs es = some (hs2, vs) ∧
        vs.length = es.length ∧ hs2.length = hs.length
  | [], hs => by
    intro _
    exact ⟨hs, [], by simp [updateBands], rfl, rfl⟩
  | e :: es, [] => by
    intro h
    simp at h
  | e :: es, h :: hs => by
    intro hlen
    obtain ⟨hs2, vs, heq, hv, hh⟩ := updateBands_some m es hs (by simpa using hlen)
    refine ⟨dequeAppend m h e :: hs2, normValOf (dequeAppend m h e) e :: vs, ?_, by simp [hv], by simp [hh]⟩
    simp only [updateBands, heq]

/-- The code path equals the spec's reference algorithm on any state whose
histories are within capacity. -/
theorem updateBands_eq_ref (m : Nat) :
    ∀ (es : List ℚ) (hs : List (List ℚ)),
      (∀ h ∈ hs, h.length ≤ m) → es.length ≤ hs.length →
      updateBands m hs es = some (refNormalize m hs es)
  | [], hs => by
    intro _ _
    simp [updateBands, refNormalize]
  | e :: es, [] => by
    intro _ h
    simp at h
  | e :: es, h :: hs => by
    intro hb hlen
    have ih := updateBands_eq_ref m es hs (fun x hx => hb x (List.mem_cons_of_mem _ hx))
      (by simpa using hlen)
    have hr := refBand_eq m h e (hb h (List.mem_cons_self h hs))
    simp only [updateBands, ih, refNormalize, hr]

/-- Capacity bound is preserved across an update. -/
theorem updateBands_bounded (m : Nat) :
    ∀ (es : List ℚ) (hs hs2 : List (List ℚ)) (vs : List ℚ),
      (∀ h ∈ hs, h.length ≤ m) → updateBands m hs es = some (hs2, vs) →
      ∀ h ∈ hs2, h.length ≤ m
  | [], hs, hs2, vs => by
    intro hb heq
    simp only [updateBands, Option.some.injEq, Prod.mk.injEq] at heq
    rw [← heq.1]
    exact hb
  | e :: es, [], hs2, vs => by
    intro _ heq
    simp [updateBands] at heq
  | e :: es, h :: hs, hs2, vs => by
    intro hb heq
    simp only [updateBands] at heq
    cases hrec : updateBands m hs es with
    | none => rw [hrec] at heq; simp at heq
    | some p =>
      rw [hrec] at heq
      simp only [Option.some.injEq, Prod.mk.injEq] at heq
      rw [← heq.1]
      intro x hx
      rcases List.mem_cons.mp hx with hx1 | hx2
      · rw [hx1]
        exact dequeAppend_length_le e (hb h (List.mem_cons_self h hs))
      · exact updateBands_bounded m es hs p.1 p.2
          (fun y hy => hb y (List.mem_cons_of_mem _ hy)) (by rw [hrec]) x hx2

/-- Per-index description of an update: the new history of band `i` is the
deque append, and the emitted value of band `i` is `normValOf` of that new
history. -/
theorem updateBands_get (m : Nat) :
    ∀ (es : List ℚ) (hs hs2 : List (List ℚ)) (vs : List ℚ),
      updateBands m hs es = some (hs2, vs) →
      ∀ i, i < es.length →
        hs2.getD i [] = dequeAppend m (hs.getD i []) (es.getD i 0) ∧
        vs.getD i 0 = normValOf (hs2.getD i []) (es.getD i 0)
  | [], hs, hs2, vs => by
    intro _ i hi
    simp at hi
  | e :: es, [], hs2, vs => by
    intro heq
    simp [updateBands] at heq
  | e :: es, h :: hs, hs2, vs => by
    intro heq i hi
    simp only [updateBands] at heq
    cases hrec : updateBands m hs es with
    | none => rw [hrec] at heq; simp at heq
    | some p =>
      rw [hrec] at heq
      simp only [Option.some.injEq, Prod.mk.injEq] at heq
      cases i with
      | zero =>
        rw [← heq.1, ← heq.2]
        exact ⟨rfl, rfl⟩
      | succ i =>
        rw [← heq.1, ← heq.2]
        simp only [List.getD_cons_succ]
        exact updateBands_get m es hs p.1 p.2 (by rw [hrec]) i (by simpa using hi)

/-- The emitted pre-`tanh` value always lies in `[0, 2]`. -/
theorem normValOf_mem (hist : List ℚ) (e : ℚ) :
    0 ≤ normValOf hist e ∧ normValOf hist e ≤ 2 := by
  simp only [normValOf]
  split
  · norm_num
  · split
    · norm_num
    · unfold npClip
      constructor
      · exact le_min (le_max_right _ _) (by norm_num)
      · exact min_le_right _ _

/-- Cold-start guard: fewer than 20 entries in the post-append history emit
the pre-`tanh` value 0. -/
theorem normValOf_cold {hist : List ℚ} (e : ℚ) (h : hist.length < 20) :
    normValOf hist e = 0 := by
  unfold normValOf
  rw [if_pos h]

/-! ## C2: `update_and_normalize` against the reference algorithm -/

/-- C2: on a state whose histories respect the capacity (true of every state
reachable from construction) and an input of exactly one energy per band,
`update_and_normalize` raises nothing, returns exactly as many values as
energies, agrees band-by-band with the spec's reference algorithm (append to
the bounded history; pre-`tanh` value 0 below 20 samples or on a degenerate
`p90 ≤ median`; otherwise `clamp((energy - median)/(p90 - median + 1e-9), 0,
2)`, of which the emitted float is the `tanh`), and preserves the capacity
bound. -/
theorem update_and_normalize_matches_ref (st : AdaptiveEnergy) (es : List ℚ)
    (hb : ∀ h ∈ st.bandHist, h.length ≤ st.maxlen)
    (hn : es.length = st.bandHist.length) :
    ∃ hs vs, st.update_and_normalize es = some (⟨st.maxlen, hs⟩, vs) ∧
      vs.length = es.length ∧
      (hs, vs) = refNormalize st.maxlen st.bandHist es ∧
      ∀ h ∈ hs, h.length ≤ st.maxlen := by
  obtain ⟨hs2, vs, heq, hv, _⟩ := updateBands_some st.maxlen es st.bandHist hn.le
  have href := updateBands_eq_ref st.maxlen es st.bandHist hb hn.le
  refine ⟨hs2, vs, ?_, hv, ?_, ?_⟩
  · unfold AdaptiveEnergy.update_and_normalize
    rw [heq]
  · rw [heq] at href
    exact (Option.some.injEq _ _).mp href.symm |>.symm ▸ rfl
  · exact updateBands_bounded st.maxlen es st.bandHist hs2 vs hb heq

/-- Witness for C2: a fresh two-band normalizer fed two energies. -/
theorem update_and_normalize_matches_ref_witness :
    (∀ h ∈ (⟨300, [[], []]⟩ : AdaptiveEnergy).bandHist, h.length ≤ 300) ∧
    ([5, 7] : List ℚ).length = 2 ∧
    (∃ hs vs,
      AdaptiveEnergy.update_and_normalize ⟨300, [[], []]⟩ [5, 7] =
        some (⟨300, hs⟩, vs) ∧
      vs.length = ([5, 7] : List ℚ).length ∧
      (hs, vs) = refNormalize 300 [[], []] [5, 7] ∧
      ∀ h ∈ hs, h.length ≤ 300) :=
  ⟨by simp, rfl,
    update_and_normalize_matches_ref ⟨300, [[], []]⟩ [5, 7] (by simp) rfl⟩

/-! ## C3: output bounds and the cold-start guard -/

/-- C3 as stated is false: a band with 19 prior samples (fewer than 20) can
emit a non-zero value on its 20th call, because the source appends the
current energy before testing `len < 20`.  Concretely, with prior history
`0, 1, ..., 18` and incoming energy 100 the emitted value is `tanh 2 ≠ 0`. -/
theorem normalizer_cold_start_off_by_one :
    ([0, 1, 2, 3, 4, 5, 6, 7, 8, 9, 10, 11, 12, 13, 14, 15, 16, 17, 18] : List ℚ).length < 20 ∧
    AdaptiveEnergy.update_and_normalize
        ⟨300, [[0, 1, 2, 3, 4, 5, 6, 7, 8, 9, 10, 11, 12, 13, 14, 15, 16, 17, 18]]⟩ [100] =
      some (⟨300, [[0, 1, 2, 3, 4, 5, 6, 7, 8, 9, 10, 11, 12, 13, 14, 15, 16, 17, 18, 100]]⟩,
        [2]) ∧
    Real.tanh 2 ≠ 0 := by
  refine ⟨by norm_num, ?_, (tanh_pos (by norm_num)).ne'⟩
  norm_num [AdaptiveEnergy.update_and_normalize, updateBands, dequeAppend, normValOf,
    npMedian, npPercentile, sortAsc, insertAsc, npClip, List.getD]

/-- A successful update returns one value per energy and one history per
band. -/
theorem updateBands_lengths (m : Nat) :
    ∀ (es : List ℚ) (hs hs2 : List (List ℚ)) (vs : List ℚ),
      updateBands m hs es = some (hs2, vs) →
      vs.length = es.length ∧ hs2.length = hs.length
  | [], hs, hs2, vs => by
    intro heq
    simp only [updateBands, Option.some.injEq, Prod.mk.injEq] at heq
    rw [← heq.1, ← heq.2]
    exact ⟨rfl, rfl⟩
  | e :: es, [], hs2, vs => by
    intro heq
    simp [updateBands] at heq
  | e :: es, h :: hs, hs2, vs => by
    intro heq
    simp only [updateBands] at heq
    cases hrec : updateBands m hs es with
    | none => rw [hrec] at heq; simp at heq
    | some p =>
      rw [hrec] at heq
      simp only [Option.some.injEq, Prod.mk.injEq] at heq
      have ih := updateBands_lengths m es hs p.1 p.2 (by rw [hrec])
      rw [← heq.1, ← heq.2]
      simp only [List.length_cons]
      omega

/-- C3 amended: every emitted value `tanh v` lies strictly inside `(-1, 1)`
(indeed in `[0, tanh 2]`), and a band whose post-append retained history
still has fewer than 20 entries — equivalently fewer than 19 prior samples —
emits exactly 0. -/
theorem normalizer_output_bounds (st : AdaptiveEnergy) (es : List ℚ)
    (st2 : AdaptiveEnergy) (vs : List ℚ)
    (hup : st.update_and_normalize es = some (st2, vs)) :
    ∀ i, i < vs.length →
      (-1 : ℝ) < Real.tanh (vs.getD i 0) ∧ Real.tanh (vs.getD i 0) < 1 ∧
      0 ≤ Real.tanh (vs.getD i 0) ∧
      ((st2.bandHist.getD i []).length < 20 → Real.tanh (vs.getD i 0) = 0) := by
  unfold AdaptiveEnergy.update_and_normalize at hup
  cases heq : updateBands st.maxlen st.bandHist es with
  | none => rw [heq] at hup; exact absurd hup (by simp)
  | some p =>
    rw [heq] at hup
    simp only [Option.some.injEq, Prod.mk.injEq] at hup
    intro i hi
    have hlen := updateBands_lengths st.maxlen es st.bandHist p.1 p.2 (by rw [heq])
    have hget := updateBands_get st.maxlen es st.bandHist p.1 p.2 (by rw [heq]) i
      (by rw [← hup.2] at hi; omega)
    have hvfun : vs.getD i 0 = normValOf (st2.bandHist.getD i []) (es.getD i 0) := by
      rw [← hup.1, ← hup.2]
      exact hget.2
    have hmem := normValOf_mem (st2.bandHist.getD i []) (es.getD i 0)
    rw [hvfun]
    have h0 : (0:ℝ) ≤ Real.tanh (normValOf (st2.bandHist.getD i []) (es.getD i 0)) := by
      apply tanh_nonneg
      exact_mod_cast hmem.1
    refine ⟨by linarith, tanh_lt_one _, h0, ?_⟩
    intro hcold
    rw [normValOf_cold _ hcold]
    exact_mod_cast Real.tanh_zero

/-- Witness for the amended C3: a fresh one-band normalizer fed one energy
emits 0 (cold start) and the bounds hold. -/
theorem normalizer_output_bounds_witness :
    AdaptiveEnergy.update_and_normalize ⟨300, [[]]⟩ [5] = some (⟨300, [[5]]⟩, [0]) ∧
    (0:ℕ) < ([0] : List ℚ).length ∧
    ((-1 : ℝ) < Real.tanh (([0] : List ℚ).getD 0 0) ∧
      Real.tanh (([0] : List ℚ).getD 0 0) < 1 ∧
      0 ≤ Real.tanh (([0] : List ℚ).getD 0 0) ∧
      (((⟨300, [[5]]⟩ : AdaptiveEnergy).bandHist.getD 0 []).length < 20 →
        Real.tanh (([0] : List ℚ).getD 0 0) = 0)) :=
  ⟨rfl, by norm_num,
    normalizer_output_bounds ⟨300, [[]]⟩ [5] ⟨300, [[5]]⟩ [0] rfl 0 (by norm_num)⟩

/-! ## C10: the audio hue never wraps and stays in [0, 231] -/

/-- Every value a successful update emits lies in `[0, 2]` (pre-`tanh`). -/
theorem updateBands_mem (m : Nat) :
    ∀ (es : List ℚ) (hs hs2 : List (List ℚ)) (vs : List ℚ),
      updateBands m hs es = some (hs2, vs) →
      ∀ v ∈ vs, 0 ≤ v ∧ v ≤ 2
  | [], hs, hs2, vs => by
    intro heq
    simp only [updateBands, Option.some.injEq, Prod.mk.injEq] at heq
    rw [← heq.2]
    simp
  | e :: es, [], hs2, vs => by
    intro heq
    simp [updateBands] at heq
  | e :: es, h :: hs, hs2, vs => by
    intro heq
    simp only [updateBands] at heq
    cases hrec : updateBands m hs es with
    | none => rw [hrec] at heq; simp at heq
    | some p =>
      rw [hrec] at heq
      simp only [Option.some.injEq, Prod.mk.injEq] at heq
      rw [← heq.2]
      intro v hv
      rcases List.mem_cons.mp hv with hv1 | hv2
      · rw [hv1]
        exact normValOf_mem _ _
      · exact updateBands_mem m es hs p.1 p.2 (by rw [hrec]) v hv2

/-- Mean of a nonempty list is bounded by bounds on its entries. -/
theorem npMeanR_bounds {l : List ℝ} {lo hi : ℝ} (hne : l ≠ [])
    (hb : ∀ y ∈ l, lo ≤ y ∧ y ≤ hi) :
    lo ≤ npMeanR l ∧ npMeanR l ≤ hi := by
  have hpos : (0:ℝ) < l.length := by
    have := List.length_pos.mpr hne
    exact_mod_cast this
  have hsum_le : l.sum ≤ l.length • hi :=
    List.sum_le_card_nsmul l hi fun y hy => (hb y hy).2
  have hle_sum : l.length • lo ≤ l.sum :=
    List.card_nsmul_le_sum l lo fun y hy => (hb y hy).1
  rw [nsmul_eq_mul] at hsum_le hle_sum
  unfold npMeanR
  constructor
  · rw [le_div_iff₀ hpos]
    linarith
  · rw [div_le_iff₀ hpos]
    linarith

/-- C10: after any successful 10-band update, every emitted normalized value
lies in `[0, tanh 2]`, the treble mean lies in `[0, 1)`, the `% 360` in the
hue computation never wraps (its argument already lies in `[0, 360)`), and
the resulting hue integer lies in `[0, 231]` — never above 240. -/
theorem audio_hue_range (st : AdaptiveEnergy) (es : List ℚ)
    (st2 : AdaptiveEnergy) (vs : List ℚ)
    (hup : st.update_and_normalize es = some (st2, vs))
    (hlen : vs.length = 10) :
    (∀ y ∈ vs.map (fun v : ℚ => Real.tanh (v : ℝ)), 0 ≤ y ∧ y ≤ Real.tanh 2) ∧
    (0 ≤ npMeanR (((vs.map (fun v : ℚ => Real.tanh (v : ℝ))).drop 6).take 4) ∧
      npMeanR (((vs.map (fun v : ℚ => Real.tanh (v : ℝ))).drop 6).take 4) < 1) ∧
    pyModR (npMeanR ((vs.map (fun v : ℚ => Real.tanh (v : ℝ))).take 3) * 0 +
        npMeanR (((vs.map (fun v : ℚ => Real.tanh (v : ℝ))).drop 6).take 4) * 240) 360 =
      npMeanR ((vs.map (fun v : ℚ => Real.tanh (v : ℝ))).take 3) * 0 +
        npMeanR (((vs.map (fun v : ℚ => Real.tanh (v : ℝ))).drop 6).take 4) * 240 ∧
    (0 ≤ audioHue (vs.map (fun v : ℚ => Real.tanh (v : ℝ))) ∧ audioHue (vs.map (fun v : ℚ => Real.tanh (v : ℝ))) ≤ 231) := by
  have hvmem : ∀ v ∈ vs, (0:ℚ) ≤ v ∧ v ≤ 2 := by
    unfold AdaptiveEnergy.update_and_normalize at hup
    cases heq : updateBands st.maxlen st.bandHist es with
    | none => rw [heq] at hup; exact absurd hup (by simp)
    | some p =>
      rw [heq] at hup
      simp only [Option.some.injEq, Prod.mk.injEq] at hup
      rw [← hup.2]
      exact updateBands_mem st.maxlen es st.bandHist p.1 p.2 (by rw [heq])
  have hns : ∀ y ∈ vs.map (fun v : ℚ => Real.tanh (v : ℝ)), 0 ≤ y ∧ y ≤ Real.tanh 2 := by
    intro y hy
    obtain ⟨v, hv, rfl⟩ := List.mem_map.mp hy
    obtain ⟨h0, h2⟩ := hvmem v hv
    constructor
    · exact tanh_nonneg (by exact_mod_cast h0)
    · exact tanh_le_tanh (by exact_mod_cast h2)
  have ht4ne : ((vs.map (fun v : ℚ => Real.tanh (v : ℝ))).drop 6).take 4 ≠ [] := by
    have : (((vs.map (fun v : ℚ => Real.tanh (v : ℝ))).drop 6).take 4).length = 4 := by
      simp [List.length_take, List.length_drop, hlen]
    intro hcon
    rw [hcon] at this
    simp at this
  have ht4mem : ∀ y ∈ ((vs.map (fun v : ℚ => Real.tanh (v : ℝ))).drop 6).take 4, 0 ≤ y ∧ y ≤ Real.tanh 2 :=
    fun y hy => hns y (List.mem_of_mem_drop (List.mem_of_mem_take hy))
  obtain ⟨hm0, hm2⟩ := npMeanR_bounds ht4ne ht4mem
  have htanh2 := tanh_two_lt
  have hm1 : npMeanR (((vs.map (fun v : ℚ => Real.tanh (v : ℝ))).drop 6).take 4) < 1 := by linarith
  set T : ℝ := npMeanR ((vs.map (fun v : ℚ => Real.tanh (v : ℝ))).take 3) * 0 +
    npMeanR (((vs.map (fun v : ℚ => Real.tanh (v : ℝ))).drop 6).take 4) * 240 with hT
  have hT0 : 0 ≤ T := by rw [hT]; nlinarith
  have hT232 : T < 232 := by rw [hT]; nlinarith
  have hfloor : ⌊T / 360⌋ = 0 := by
    rw [Int.floor_eq_zero_iff]
    constructor
    · positivity
    · rw [div_lt_one (by norm_num : (0:ℝ) < 360)]
      linarith
  have hmod : pyModR T 360 = T := by
    unfold pyModR
    rw [hfloor]
    ring
  refine ⟨hns, ⟨hm0, hm1⟩, hmod, ?_, ?_⟩
  · unfold audioHue
    rw [← hT, hmod]
    unfold pyIntR
    rw [if_pos hT0]
    exact Int.floor_nonneg.mpr hT0
  · unfold audioHue
    rw [← hT, hmod]
    unfold pyIntR
    rw [if_pos hT0]
    have : ⌊T⌋ < 232 := Int.floor_lt.mpr (by exact_mod_cast hT232)
    omega

/-- Witness for C10: ten cold bands fed ten zero energies. -/
theorem audio_hue_range_witness :
    AdaptiveEnergy.update_and_normalize
        ⟨300, [[], [], [], [], [], [], [], [], [], []]⟩ [0, 0, 0, 0, 0, 0, 0, 0, 0, 0] =
      some (⟨300, [[0], [0], [0], [0], [0], [0], [0], [0], [0], [0]]⟩,
        [0, 0, 0, 0, 0, 0, 0, 0, 0, 0]) ∧
    ([0, 0, 0, 0, 0, 0, 0, 0, 0, 0] : List ℚ).length = 10 ∧
    (0 ≤ audioHue (([0, 0, 0, 0, 0, 0, 0, 0, 0, 0] : List ℚ).map (fun v : ℚ => Real.tanh (v : ℝ))) ∧
      audioHue (([0, 0, 0, 0, 0, 0, 0, 0, 0, 0] : List ℚ).map (fun v : ℚ => Real.tanh (v : ℝ))) ≤ 231) :=
  ⟨rfl, rfl,
    (audio_hue_range ⟨300, [[], [], [], [], [], [], [], [], [], []]⟩
      [0, 0, 0, 0, 0, 0, 0, 0, 0, 0]
      ⟨300, [[0], [0], [0], [0], [0], [0], [0], [0], [0], [0]]⟩
      [0, 0, 0, 0, 0, 0, 0, 0, 0, 0] rfl rfl).2.2.2⟩

/-! ## C7: screen brightness clamping -/

/-- The brightness target of a tick always lies in the configured bounds
whenever the bounds are ordered. -/
theorem weighted_targets_brightness_mem (st : ScreenSettings) (user : ℤ)
    (c : ℤ × ℤ × ℤ) (hmm : st.min_brightness ≤ st.max_brightness) :
    st.min_brightness ≤ (weighted_targets st user c).2.2 ∧
    (weighted_targets st user c).2.2 ≤ st.max_brightness := by
  have h : (weighted_targets st user c).2.2 =
      max st.min_brightness
        (min (pyInt ((user : ℚ) *
          (rgb_to_hsv ((c.1 : ℚ) / 255) ((c.2.1 : ℚ) / 255) ((c.2.2 : ℚ) / 255)).2.2))
          st.max_brightness) := rfl
  rw [h]
  exact ⟨le_max_left _ _, max_le hmm (min_le_right _ _)⟩

/-- One smoothing step keeps the persisted and the pushed brightness inside
ordered bounds containing the previous smoothed value. -/
theorem runScreen_brightness (st : ScreenSettings) (user : ℤ)
    (hf0 : 0 ≤ st.smoothing_factor) (hf1 : st.smoothing_factor ≤ 1)
    (hmin0 : 0 ≤ st.min_brightness) (hmm : st.min_brightness ≤ st.max_brightness) :
    ∀ (frames : List (ℤ × ℤ × ℤ)) (cur : ℚ × ℚ × ℚ),
      (st.min_brightness : ℚ) ≤ cur.2.2 → cur.2.2 ≤ (st.max_brightness : ℚ) →
      ∀ p ∈ runScreen st user cur frames,
        st.min_brightness ≤ p.2.2 ∧ p.2.2 ≤ st.max_brightness
  | [], cur => by
    intro _ _ p hp
    simp [runScreen] at hp
  | c :: cs, cur => by
    intro hlo hhi p hp
    obtain ⟨htlo, hthi⟩ := weighted_targets_brightness_mem st user c hmm
    set tb : ℤ := (weighted_targets st user c).2.2 with htb
    have hb2 : (update_colors st user cur c).1.2.2 =
        lerp cur.2.2 (tb : ℚ) st.smoothing_factor := rfl
    have hpb : (update_colors st user cur c).2.2.2 =
        pyInt (lerp cur.2.2 (tb : ℚ) st.smoothing_factor) := rfl
    have htlo' : (st.min_brightness : ℚ) ≤ (tb : ℚ) := by exact_mod_cast htlo
    have hthi' : (tb : ℚ) ≤ (st.max_brightness : ℚ) := by exact_mod_cast hthi
    have hblo : (st.min_brightness : ℚ) ≤ lerp cur.2.2 (tb : ℚ) st.smoothing_factor := by
      unfold lerp
      nlinarith
    have hbhi : lerp cur.2.2 (tb : ℚ) st.smoothing_factor ≤ (st.max_brightness : ℚ) := by
      unfold lerp
      nlinarith
    rw [runScreen] at hp
    rcases List.mem_cons.mp hp with hp1 | hp2
    · rw [hp1, hpb]
      have h0b : (0:ℚ) ≤ lerp cur.2.2 (tb : ℚ) st.smoothing_factor := by
        have hq : (0:ℚ) ≤ (st.min_brightness : ℚ) := by exact_mod_cast hmin0
        linarith
      unfold pyInt
      rw [if_pos h0b]
      constructor
      · exact Int.le_floor.mpr hblo
      · have := Int.floor_le_floor hbhi
        rw [Int.floor_intCast] at this
        exact this
    · exact runScreen_brightness st user hf0 hf1 hmin0 hmm cs _
        (by rw [hb2]; exact hblo) (by rw [hb2]; exact hbhi) p hp2

/-- C7 amended: for a screen engine whose smoothing factor lies in `[0, 1]`
and whose brightness bounds are ordered, nonnegative and contain the initial
smoothed brightness 60, every brightness pushed to the device lies within
`[min_brightness, max_brightness]`, for every sequence of captured frames
(the tick input is the gamma-corrected average colour of the frame). -/
theorem screen_brightness_clamped (st : ScreenSettings) (user : ℤ)
    (hf0 : 0 ≤ st.smoothing_factor) (hf1 : st.smoothing_factor ≤ 1)
    (hmin0 : 0 ≤ st.min_brightness)
    (hmin60 : (st.min_brightness : ℚ) ≤ 60) (hmax60 : (60 : ℚ) ≤ (st.max_brightness : ℚ)) :
    ∀ (frames : List (ℤ × ℤ × ℤ)), ∀ p ∈ runScreen st user screenInit frames,
      st.min_brightness ≤ p.2.2 ∧ p.2.2 ≤ st.max_brightness := by
  intro frames p hp
  have hmm : st.min_brightness ≤ st.max_brightness := by exact_mod_cast hmin60.trans hmax60
  exact runScreen_brightness st user hf0 hf1 hmin0 hmm frames screenInit hmin60 hmax60 p hp

/-- Witness for the amended C7: the default settings and an all-black frame,
whose single tick pushes the triple `(0, 34, 40)` with brightness inside
`[10, 80]`. -/
theorem screen_brightness_clamped_witness :
    ((0:ℤ), (34:ℤ), (40:ℤ)) ∈ runScreen ScreenSettings.default 80 screenInit [(0, 0, 0)] ∧
    ScreenSettings.default.min_brightness ≤ ((0:ℤ), (34:ℤ), (40:ℤ)).2.2 ∧
    ((0:ℤ), (34:ℤ), (40:ℤ)).2.2 ≤ ScreenSettings.default.max_brightness := by
  have hrun : runScreen ScreenSettings.default 80 screenInit [(0, 0, 0)] =
      [(0, 34, 40)] := by
    norm_num [runScreen, update_colors, weighted_targets, rgb_to_hsv, lerp, lerp_hue,
      pyMod, pyInt, screenInit, ScreenSettings.default]
  have hmem : ((0:ℤ), (34:ℤ), (40:ℤ)) ∈
      runScreen ScreenSettings.default 80 screenInit [(0, 0, 0)] := by
    rw [hrun]
    exact List.mem_singleton.mpr rfl
  exact ⟨hmem,
    screen_brightness_clamped ScreenSettings.default 80
      (by norm_num [ScreenSettings.default]) (by norm_num [ScreenSettings.default])
      (by norm_num [ScreenSettings.default]) (by norm_num [ScreenSettings.default])
      (by norm_num [ScreenSettings.default]) [(0, 0, 0)] (0, 34, 40) hmem⟩

/-- C7 as stated is false without the containment hypothesis: with legal
settings whose `max_brightness` is 40 (below the initial smoothed brightness
60), an all-white frame (whose gamma-corrected average colour is
`(255, 255, 255)` for any gamma) makes the first tick push brightness 52,
outside `[10, 40]`. -/
theorem screen_brightness_counterexample :
    runScreen ⟨60, 2/5, 6/5, 3/2, 10, 40, 9/5, 1⟩ 80 screenInit [(255, 255, 255)] =
      [(0, 34, 52)] ∧
    ¬ ((52 : ℤ) ≤ 40) ∧
    apply_gamma_correction (255, 255, 255) ((6:ℝ)/5) = (255, 255, 255) := by
  refine ⟨?_, by norm_num, ?_⟩
  · norm_num [runScreen, update_colors, weighted_targets, rgb_to_hsv, lerp, lerp_hue,
      pyMod, pyInt, screenInit]
  · unfold apply_gamma_correction
    have h1 : ((255 : ℤ) : ℝ) / 255 = 1 := by norm_num
    have h2 : ((1:ℝ) ^ ((6:ℝ)/5)) = 1 := Real.one_rpow _
    have h3 : pyIntR ((255 : ℝ)) = 255 := by
      rw [show (255:ℝ) = ((255 : ℤ) : ℝ) by norm_num, pyIntR_intCast]
    simp only [h1, h2, mul_one, h3]
